import Mathlib

/-!
# Verification of the pytineye request-signing core (`pytineye/api_request.py`)

This file embeds the `APIRequest` class of `pytineye/api_request.py` into Lean
and proves / refutes the frozen claims about it.

Modelling conventions:

* Python strings are Lean `String`s; all string manipulation is re-implemented
  on `List Char` because the code only ever manipulates code points
  (Python `str` is a sequence of code points).  `str.lower()` is modelled on
  its ASCII behaviour (the protocol strings are ASCII).
* A Python `dict` is modelled as the list of its items in iteration
  (= insertion) order; `dict` assignment is `dictInsert` (replace or append)
  and indexing is `dictGet`.
* `urllib.parse.quote_plus(s, safe)` is modelled by `quote_plus` below.
  Since Python 3.7 the always-safe set is `ALPHA ++ DIGIT ++ "_.-~"`, so
  `quote_plus(v, "~")` (used for `image_url`) and `quote_plus(f)` (used for
  the upload filename) encode exactly the same characters; other characters
  are replaced by uppercase `%XX` escapes of their UTF-8 bytes and a space
  becomes `+`.
* `hmac.new(key, msg, sha256).hexdigest()` (`_generate_hmac_signature`) is an
  opaque hash: the functions that use it take it as an explicit argument
  `sig : String → String`.  All claims are about which string is handed to
  it, not about SHA-256 itself.
* `random.StrongRandom().choice(chars)` returns some element of `chars`; the
  random source is modelled as an arbitrary function `rand : Nat → Fin n`
  giving the index chosen at each iteration.
* `int(time.time())` and the generated nonce/boundary are call-local inputs
  of the functions that the code generates them in.
-/

namespace PyTinEye

/-! ## Python string primitives -/

/-- ASCII lowercasing of one character: Python `str.lower()` maps `A`-`Z`
(code points 65-90) to the character 32 code points later. -/
def lowerChar (c : Char) : Char :=
  if 65 ≤ c.toNat ∧ c.toNat ≤ 90 then Char.ofNat (c.toNat + 32) else c

/-- Python `str.lower()` on its ASCII fragment. -/
def pyLower (s : String) : String := ⟨s.data.map lowerChar⟩

/-- Python `str.strip()` whitespace set (ASCII part). -/
def pySpace (c : Char) : Bool :=
  c = ' ' || c = '\t' || c = '\n' || c = '\r' || c = '\x0b' || c = '\x0c'

/-- Python `str.strip()`. -/
def pyStrip (s : String) : String :=
  ⟨((s.data.dropWhile pySpace).reverse.dropWhile pySpace).reverse⟩

/-- Characters `urllib.parse.quote` never escapes (Python ≥ 3.7), which is
also the effective safe set of `quote_plus(·, "~")`: ASCII letters, digits,
`_`, `.`, `-` and `~`. -/
def pySafeChar (c : Char) : Bool :=
  (65 ≤ c.toNat && c.toNat ≤ 90) || (97 ≤ c.toNat && c.toNat ≤ 122) ||
  (48 ≤ c.toNat && c.toNat ≤ 57) || c = '_' || c = '.' || c = '-' || c = '~'

/-- The UTF-8 bytes of a code point (Python `str.encode("utf-8")`,
one character). -/
def utf8Bytes (n : Nat) : List Nat :=
  if n < 0x80 then [n]
  else if n < 0x800 then [0xC0 + n / 0x40, 0x80 + n % 0x40]
  else if n < 0x10000 then
    [0xE0 + n / 0x1000, 0x80 + n / 0x40 % 0x40, 0x80 + n % 0x40]
  else
    [0xF0 + n / 0x40000, 0x80 + n / 0x1000 % 0x40, 0x80 + n / 0x40 % 0x40,
      0x80 + n % 0x40]

/-- Uppercase hexadecimal digit, as `urllib.parse.quote` renders escapes. -/
def hexDigitUpper (n : Nat) : Char :=
  if n < 10 then Char.ofNat (48 + n) else Char.ofNat (55 + n)

/-- One `%XX` escape. -/
def percentByte (b : Nat) : List Char :=
  ['%', hexDigitUpper (b / 16), hexDigitUpper (b % 16)]

/-- How `quote_plus` renders a single character: safe characters stand for
themselves, a space becomes `+`, anything else is percent-escaped per
UTF-8 byte. -/
def quotePlusChar (c : Char) : List Char :=
  if pySafeChar c then [c]
  else if c = ' ' then ['+']
  else (utf8Bytes c.toNat).flatMap percentByte

/-- `urllib.parse.quote_plus(s, "~")` (also `quote_plus(s)`: the extra safe
character `~` is already always-safe since Python 3.7). -/
def quote_plus (s : String) : String := ⟨s.data.flatMap quotePlusChar⟩

/-! ## Sorting (Python `list.sort()` on strings)

Python sorts strings by code-point-lexicographic `<`.  The code only ever
sorts lists of strings whose duplicates are identical strings, so any
sorting algorithm for that order produces the same list as CPython's stable
sort; we use insertion sort, which evaluates by `rfl`/`decide`. -/

/-- Code-point lexicographic `≤` on character lists (Python string order). -/
def charListLe : List Char → List Char → Bool
  | [], _ => true
  | _ :: _, [] => false
  | a :: as, b :: bs =>
    if a.toNat < b.toNat then true
    else if b.toNat < a.toNat then false
    else charListLe as bs

/-- Python string comparison `a <= b`. -/
def strLe (a b : String) : Bool := charListLe a.data b.data

/-- Insert into a `strLe`-sorted list. -/
def insertStr (x : String) : List String → List String
  | [] => [x]
  | y :: ys => if strLe x y then x :: y :: ys else y :: insertStr x ys

/-- Sorting a list of strings in ascending Python order
(models `params.sort()`). -/
def sortStrings : List String → List String
  | [] => []
  | x :: xs => insertStr x (sortStrings xs)

/-! ## `_sort_params` -/

/-- The reserved keys excluded from the canonical parameter string
(`api_request.py:162-169`). -/
def reservedKeys : List String :=
  ["api_key", "public_key", "api_sig", "date", "nonce", "image_upload"]

/-- The value stored into `query_params` for one entry
(`api_request.py:170-181`): the `image_url` special case percent-encodes the
value (and lowercases the encoding when `lowercase` is set); every other
value passes through unchanged.  A `bytes` value is its decoded string. -/
def processValue (lowercase : Bool) (key value : String) : String :=
  if pyLower key = "image_url" then
    let urlEscape := quote_plus value
    if lowercase then pyLower urlEscape else urlEscape
  else value

/-- Python `dict` assignment `d[k] = v` on an item list. -/
def dictInsert : List (String × String) → String → String → List (String × String)
  | [], k, v => [(k, v)]
  | p :: t, k, v => if p.1 = k then (k, v) :: t else p :: dictInsert t k v

/-- Python `dict` indexing `d[k]` on an item list (the code only indexes
keys it has inserted, so the default is never observed). -/
def dictGet : List (String × String) → String → String
  | [], _ => ""
  | p :: t, k => if p.1 = k then p.2 else dictGet t k

/-- The `query_params` dict after the loop of `_sort_params`
(`api_request.py:156-182`), processing entries in iteration order. -/
def qpBuild (lowercase : Bool) (acc : List (String × String)) :
    List (String × String) → List (String × String)
  | [] => acc
  | (k, v) :: rest =>
    if pyLower k ∈ reservedKeys then qpBuild lowercase acc rest
    else qpBuild lowercase (dictInsert acc (pyLower k) (processValue lowercase k v)) rest

/-- The `params` list after the loop of `_sort_params`: the lowercased
non-reserved keys in iteration order. -/
def paramList : List (String × String) → List String
  | [] => []
  | (k, _) :: rest =>
    if pyLower k ∈ reservedKeys then paramList rest else pyLower k :: paramList rest

/-- The sorted key list `params` after `params.sort()`. -/
def canonicalKeys (requestParams : List (String × String)) : List String :=
  sortStrings (paramList requestParams)

/-- The `(key, value)` pairs rendered into the canonical string, in output
order (`api_request.py:185-187`). -/
def canonicalPairs (lowercase : Bool) (requestParams : List (String × String)) :
    List (String × String) :=
  (canonicalKeys requestParams).map
    (fun p => (p, dictGet (qpBuild lowercase [] requestParams) p))

/-- `_sort_params(request_params, lowercase)` (`api_request.py:144-189`). -/
def sort_params (requestParams : List (String × String)) (lowercase : Bool := true) :
    String :=
  String.intercalate "&"
    ((canonicalPairs lowercase requestParams).map (fun p => p.1 ++ "=" ++ p.2))

/-! ## Signing strings and URL rendering

`_generate_hmac_signature` (HMAC-SHA256 of the UTF-8 bytes, hex digest) is
abstracted as an argument `sig : String → String`; the definitions below
construct the exact strings the code hands to it. -/

/-- The `to_sign` string of `_generate_get_hmac_signature`
(`api_request.py:84-92`). -/
def get_to_sign (privateKey apiUrl method nonce : String) (date : Int)
    (requestParams : List (String × String)) : String :=
  let httpVerb := "GET"
  let paramStr := sort_params requestParams
  let requestUrl := apiUrl ++ method ++ "/"
  privateKey ++ httpVerb ++ toString date ++ nonce ++ requestUrl ++ paramStr

/-- The `to_sign` string of `_generate_post_hmac_signature`
(`api_request.py:110-126`). -/
def post_to_sign (privateKey apiUrl method boundary nonce : String) (date : Int)
    (filename : String) (requestParams : List (String × String)) : String :=
  let httpVerb := "POST"
  let contentType := "multipart/form-data; boundary=" ++ boundary
  let paramStr := sort_params requestParams
  let requestUrl := apiUrl ++ method ++ "/"
  privateKey ++ httpVerb ++ contentType ++ pyLower (quote_plus filename) ++
    toString date ++ nonce ++ requestUrl ++ paramStr

/-- `_request_url(method, nonce, date, api_signature, request_params)`
(`api_request.py:191-228`). -/
def request_url (apiUrl publicKey method nonce : String) (date : Int)
    (apiSignature : String) (requestParams : List (String × String)) : String :=
  let baseUrl := apiUrl ++ method ++ "/"
  let requestUrl :=
    if publicKey ≠ "" then
      baseUrl ++ "?api_key=" ++ publicKey ++ "&date=" ++ toString date ++
        "&nonce=" ++ nonce ++ "&api_sig=" ++ apiSignature
    else baseUrl ++ "?"
  let extraParams := sort_params requestParams false
  if extraParams ≠ "" ∧ publicKey ≠ "" then requestUrl ++ "&" ++ extraParams
  else requestUrl ++ extraParams

/-- `get_request(method, request_params)` (`api_request.py:230-247`), with
the call-local nonce and timestamp as inputs and the HMAC abstracted as
`sig`. -/
def get_request (sig : String → String) (apiUrl publicKey privateKey : String)
    (nonce : String) (date : Int) (method : String)
    (requestParams : List (String × String)) : String :=
  let apiSignature := sig (get_to_sign privateKey apiUrl method nonce date requestParams)
  request_url apiUrl publicKey method nonce date apiSignature requestParams

/-- `post_request(method, filename, request_params)`
(`api_request.py:249-281`), with the call-local boundary, nonce and
timestamp as inputs and the HMAC abstracted as `sig`.  A missing filename
is `none`.  Note the source passes the literal `"search"`, not `method`,
to `_generate_post_hmac_signature` (`api_request.py:275`). -/
def post_request (sig : String → String) (apiUrl publicKey privateKey : String)
    (boundary nonce : String) (date : Int) (method : String)
    (filename : Option String) (requestParams : List (String × String)) :
    Except String (String × String) :=
  match filename with
  | none => .error "Must specify an image to search for."
  | some f =>
    if (pyStrip f).data = [] then .error "Must specify an image to search for."
    else
      let apiSignature :=
        sig (post_to_sign privateKey apiUrl "search" boundary nonce date f requestParams)
      .ok (request_url apiUrl publicKey method nonce date apiSignature requestParams,
        boundary)

/-! ## Nonce generation

`_generate_nonce` is dynamically typed: its argument may be an `int`, a
`float` or a `str` (the test suite passes a `str`).  `PyVal` models that
argument domain, `PyError` the exceptions that can escape. -/

/-- A Python value passed as `nonce_length`: an `int`, a `float`
(modelled exactly as a rational) or a `str`. -/
inductive PyVal where
  | int (n : Int)
  | float (q : Rat)
  | str (s : String)

/-- Exceptions escaping `_generate_nonce`: the `APIRequestError` the code
raises (the spec calls it `RequestConfigurationError`), or an uncaught
`TypeError` from comparing/`range`-ing a non-`int`. -/
inductive PyError where
  | apiRequestError (msg : String)
  | typeError
deriving DecidableEq

/-- Does `int(s)` succeed on a string?  Python accepts optional surrounding
whitespace, an optional sign and a nonempty digit run (numeric-literal
underscores are not modelled). -/
def pyIntParsableDigits : List Char → Bool
  | [] => false
  | l => l.all (fun c => 48 ≤ c.toNat && c.toNat ≤ 57)

def pyIntParsable (s : String) : Bool :=
  match (pyStrip s).data with
  | '+' :: rest => pyIntParsableDigits rest
  | '-' :: rest => pyIntParsableDigits rest
  | l => pyIntParsableDigits l

/-- Does `int(v)` succeed?  (`int` and finite `float` always convert.) -/
def pyIntOk : PyVal → Bool
  | .int _ => true
  | .float _ => true
  | .str s => pyIntParsable s

/-- Python `v < n` for an `int` literal `n`: comparing a `str` with an
`int` raises `TypeError`. -/
def pyLtInt : PyVal → Int → Except PyError Bool
  | .int m, n => .ok (m < n)
  | .float q, n => .ok (q < (n : Rat))
  | .str _, _ => .error .typeError

/-- Python `v > n` for an `int` literal `n`. -/
def pyGtInt : PyVal → Int → Except PyError Bool
  | .int m, n => .ok (m > n)
  | .float q, n => .ok (q > (n : Rat))
  | .str _, _ => .error .typeError

/-- Python `range(0, v)` length: raises `TypeError` unless `v` is an `int`. -/
def pyRangeLen : PyVal → Except PyError Nat
  | .int n => .ok n.toNat
  | .float _ => .error .typeError
  | .str _ => .error .typeError

/-- `APIRequest.min_nonce_length` (`api_request.py:31`). -/
def min_nonce_length : Int := 24

/-- `APIRequest.max_nonce_length` (`api_request.py:32`). -/
def max_nonce_length : Int := 255

/-- `APIRequest.nonce_allowable_chars` (`api_request.py:33-35`). -/
def nonce_allowable_chars : String :=
  "abcdefghijklmnopqrstuvwxyzABCDEFGHIJKLMNOPQRTSUVWXYZ0123456789-_=.,*^"

/-- The nonce alphabet as a character list. -/
def nonceChars : List Char := nonce_allowable_chars.data

/-- The error message of `api_request.py:58-61` after `%`-interpolation. -/
def nonceErrorMsg : String := "Nonce length must be an int between 24 and 255 chars"

/-- The default of the `nonce_length` parameter (`api_request.py:42`). -/
def default_nonce_length : Int := 24

/-- `_generate_nonce(nonce_length)` (`api_request.py:42-71`).  The
`try/except ValueError` block turns a failed `int()` conversion or an
out-of-range length into an `APIRequestError`; a `TypeError` (comparison or
`range` on a non-`int`) is not caught.  `rand i` is the index
`random.StrongRandom().choice` picks from the alphabet at iteration `i`. -/
def generate_nonce (rand : Nat → Fin nonceChars.length) (nonceLength : PyVal) :
    Except PyError String :=
  if !pyIntOk nonceLength then .error (.apiRequestError nonceErrorMsg)
  else
    match pyLtInt nonceLength min_nonce_length with
    | .error e => .error e
    | .ok lt =>
      match pyGtInt nonceLength max_nonce_length with
      | .error e => .error e
      | .ok gt =>
        if lt || gt then .error (.apiRequestError nonceErrorMsg)
        else
          match pyRangeLen nonceLength with
          | .error e => .error e
          | .ok len => .ok ⟨(List.range len).map (fun i => nonceChars.get (rand i))⟩

/-- `_generate_nonce()` with its default argument, as `get_request` and
`post_request` call it. -/
def generate_nonce_default (rand : Nat → Fin nonceChars.length) :
    Except PyError String :=
  generate_nonce rand (.int default_nonce_length)

/-! ## Basic lemmas: characters and lowercasing -/

theorem stringDataEq {a b : String} (h : a.data = b.data) : a = b :=
  congrArg String.mk h

theorem toNat_ofNat_add32 {n : Nat} (h1 : 65 ≤ n) (h2 : n ≤ 90) :
    (Char.ofNat (n + 32)).toNat = n + 32 := by
  interval_cases n <;> decide

theorem lowerChar_toNat_of_upper {c : Char} (h1 : 65 ≤ c.toNat) (h2 : c.toNat ≤ 90) :
    (lowerChar c).toNat = c.toNat + 32 := by
  unfold lowerChar
  rw [if_pos ⟨h1, h2⟩]
  exact toNat_ofNat_add32 h1 h2

theorem lowerChar_ne_of_upper {c : Char} (h1 : 65 ≤ c.toNat) (h2 : c.toNat ≤ 90) :
    lowerChar c ≠ c := by
  intro h
  have := lowerChar_toNat_of_upper h1 h2
  rw [h] at this
  omega

theorem lowerChar_idem (c : Char) : lowerChar (lowerChar c) = lowerChar c := by
  by_cases h : 65 ≤ c.toNat ∧ c.toNat ≤ 90
  · have hv := lowerChar_toNat_of_upper h.1 h.2
    unfold lowerChar
    rw [if_pos h, if_neg]
    rw [show (Char.ofNat (c.toNat + 32)).toNat = (lowerChar c).toNat from by
      unfold lowerChar; rw [if_pos h], hv]
    omega
  · unfold lowerChar
    rw [if_neg h, if_neg h]

theorem pyLower_idem (s : String) : pyLower (pyLower s) = pyLower s := by
  unfold pyLower
  refine stringDataEq ?_
  simp [List.map_map, Function.comp, lowerChar_idem]

theorem map_eq_self_mem {α : Type} {f : α → α} {l : List α} (h : l.map f = l) :
    ∀ x ∈ l, f x = x := by
  induction l with
  | nil => intro x hx; cases hx
  | cons a t ih =>
    intro x hx
    simp only [List.map_cons, List.cons.injEq] at h
    rcases List.mem_cons.mp hx with hx | hx
    · rw [hx]; exact h.1
    · exact ih h.2 x hx

/-! ## Basic lemmas: the string order and insertion sort -/

theorem charListLe_total : ∀ as bs : List Char,
    charListLe as bs = true ∨ charListLe bs as = true
  | [], [] => Or.inl rfl
  | [], _ :: _ => Or.inl rfl
  | _ :: _, [] => Or.inr rfl
  | a :: as, b :: bs => by
    unfold charListLe
    rcases Nat.lt_trichotomy a.toNat b.toNat with h | h | h
    · left; rw [if_pos h]
    · rw [if_neg (by omega), if_neg (by omega), if_neg (by omega), if_neg (by omega)]
      exact charListLe_total as bs
    · right; rw [if_pos h]

theorem charListLe_antisymm : ∀ {as bs : List Char},
    charListLe as bs = true → charListLe bs as = true → as = bs
  | [], [], _, _ => rfl
  | [], _ :: _, _, h => by simp [charListLe] at h
  | _ :: _, [], h, _ => by simp [charListLe] at h
  | a :: as, b :: bs, h1, h2 => by
    unfold charListLe at h1 h2
    rcases Nat.lt_trichotomy a.toNat b.toNat with h | h | h
    · rw [if_neg (by omega), if_pos h] at h2; cases h2
    · rw [if_neg (by omega), if_neg (by omega)] at h1 h2
      have hc : a = b := Char.ext (UInt32.ext h)
      rw [hc, charListLe_antisymm h1 h2]
    · rw [if_neg (by omega), if_pos h] at h1; cases h1

theorem charListLe_trans : ∀ {as bs cs : List Char},
    charListLe as bs = true → charListLe bs cs = true → charListLe as cs = true
  | [], _, _, _, _ => rfl
  | _ :: _, [], _, h, _ => by simp [charListLe] at h
  | _ :: _, _ :: _, [], _, h => by simp [charListLe] at h
  | a :: as, b :: bs, c :: cs, h1, h2 => by
    unfold charListLe at h1 h2 ⊢
    rcases Nat.lt_trichotomy a.toNat b.toNat with hab | hab | hab <;>
      rcases Nat.lt_trichotomy b.toNat c.toNat with hbc | hbc | hbc
    all_goals first
      | (rw [if_pos (by omega)])
      | (rw [if_neg (by omega), if_pos (by omega)] at h1; cases h1)
      | (rw [if_neg (by omega), if_pos (by omega)] at h2; cases h2)
      | (rw [if_neg (by omega), if_neg (by omega)] at h1 h2 ⊢
         exact charListLe_trans h1 h2)

theorem strLe_total (a b : String) : strLe a b = true ∨ strLe b a = true :=
  charListLe_total a.data b.data

theorem strLe_antisymm {a b : String} (h1 : strLe a b = true) (h2 : strLe b a = true) :
    a = b :=
  stringDataEq (charListLe_antisymm h1 h2)

theorem strLe_trans {a b c : String} (h1 : strLe a b = true) (h2 : strLe b c = true) :
    strLe a c = true :=
  charListLe_trans h1 h2

theorem insertStr_perm (x : String) : ∀ l : List String,
    (insertStr x l).Perm (x :: l)
  | [] => List.Perm.refl _
  | y :: ys => by
    unfold insertStr
    by_cases h : strLe x y = true
    · rw [if_pos h]
    · rw [if_neg h]
      exact ((insertStr_perm x ys).cons y).trans (List.Perm.swap x y ys)

theorem sortStrings_perm : ∀ l : List String, (sortStrings l).Perm l
  | [] => List.Perm.refl _
  | x :: xs =>
    (insertStr_perm x (sortStrings xs)).trans ((sortStrings_perm xs).cons x)

theorem insertStr_sorted (x : String) : ∀ {l : List String},
    l.Pairwise (fun a b => strLe a b = true) →
    (insertStr x l).Pairwise (fun a b => strLe a b = true)
  | [], _ => by simp [insertStr]
  | y :: ys, h => by
    unfold insertStr
    by_cases hxy : strLe x y = true
    · rw [if_pos hxy]
      refine List.Pairwise.cons ?_ h
      intro z hz
      rcases List.mem_cons.mp hz with hz | hz
      · rw [hz]; exact hxy
      · exact strLe_trans hxy (List.rel_of_pairwise_cons h hz)
    · rw [if_neg hxy]
      have hyx : strLe y x = true := (strLe_total x y).resolve_left hxy
      refine List.Pairwise.cons ?_ (insertStr_sorted x (List.Pairwise.of_cons h))
      intro z hz
      rcases List.mem_cons.mp ((insertStr_perm x ys).mem_iff.mp hz) with hz2 | hz2
      · rw [hz2]; exact hyx
      · exact List.rel_of_pairwise_cons h hz2

theorem sortStrings_sorted : ∀ l : List String,
    (sortStrings l).Pairwise (fun a b => strLe a b = true)
  | [] => List.Pairwise.nil
  | x :: xs => insertStr_sorted x (sortStrings_sorted xs)

theorem sortStrings_eq_of_perm {l1 l2 : List String} (h : l1.Perm l2) :
    sortStrings l1 = sortStrings l2 := by
  refine @List.eq_of_perm_of_sorted String (fun a b => strLe a b = true)
    ⟨fun a b h1 h2 => strLe_antisymm h1 h2⟩ _ _ ?_
    (sortStrings_sorted l1) (sortStrings_sorted l2)
  exact ((sortStrings_perm l1).trans h).trans (sortStrings_perm l2).symm

theorem mem_sortStrings {x : String} {l : List String} :
    x ∈ sortStrings l ↔ x ∈ l :=
  (sortStrings_perm l).mem_iff

/-! ## The processed entry list and dictionary lemmas

`procList` is the sequence of `(lowercased key, processed value)` writes the
loop of `_sort_params` performs, in order; the lemmas relate the `dict`
state `qpBuild` builds to it. -/

/-- The `query_params` writes of the `_sort_params` loop, in order. -/
def procList (lowercase : Bool) (l : List (String × String)) :
    List (String × String) :=
  l.filterMap (fun p =>
    if pyLower p.1 ∈ reservedKeys then none
    else some (pyLower p.1, processValue lowercase p.1 p.2))

/-- The value of the last write with a given key, if any. -/
def assocLast : List (String × String) → String → Option String
  | [], _ => none
  | p :: t, k =>
    match assocLast t k with
    | some v => some v
    | none => if p.1 = k then some p.2 else none

theorem paramList_eq_map_procList (b : Bool) (l : List (String × String)) :
    paramList l = (procList b l).map Prod.fst := by
  induction l with
  | nil => rfl
  | cons p t ih =>
    cases p with
    | mk k v =>
      unfold paramList procList
      by_cases h : pyLower k ∈ reservedKeys
      · simp only [List.filterMap_cons, if_pos h]
        exact ih
      · simp only [List.filterMap_cons, if_neg h, List.map_cons]
        exact congrArg _ ih

theorem dictGet_dictInsert (d : List (String × String)) (k v k' : String) :
    dictGet (dictInsert d k v) k' = if k = k' then v else dictGet d k' := by
  induction d with
  | nil => simp [dictInsert, dictGet]
  | cons p t ih =>
    unfold dictInsert
    by_cases hp : p.1 = k
    · rw [if_pos hp]
      simp only [dictGet]
      by_cases h : k = k'
      · rw [if_pos h, if_pos h]
      · rw [if_neg h, if_neg h, if_neg (show ¬ p.1 = k' from fun hh => h (hp.symm.trans hh))]
    · rw [if_neg hp]
      simp only [dictGet]
      by_cases h : p.1 = k'
      · rw [if_pos h, if_neg (show ¬ k = k' from fun hk => hp (h.trans hk.symm)), if_pos h]
      · rw [if_neg h, ih]
        by_cases hk : k = k'
        · rw [if_pos hk, if_pos hk]
        · rw [if_neg hk, if_neg hk, if_neg h]



theorem procList_cons (b : Bool) (k0 v0 : String) (t : List (String × String)) :
    procList b ((k0, v0) :: t) =
      if pyLower k0 ∈ reservedKeys then procList b t
      else (pyLower k0, processValue b k0 v0) :: procList b t := by
  simp only [procList, List.filterMap_cons]
  by_cases h : pyLower k0 ∈ reservedKeys
  · rw [if_pos h, if_pos h]
  · rw [if_neg h, if_neg h]

theorem dictGet_qpBuild (b : Bool) (l : List (String × String)) :
    ∀ (acc : List (String × String)) (k : String),
    dictGet (qpBuild b acc l) k =
      match assocLast (procList b l) k with
      | some v => v
      | none => dictGet acc k := by
  induction l with
  | nil => intro acc k; rfl
  | cons p t ih =>
    intro acc k
    cases p with
    | mk k0 v0 =>
      rw [procList_cons]
      simp only [qpBuild]
      by_cases h : pyLower k0 ∈ reservedKeys
      · rw [if_pos h, if_pos h]
        exact ih acc k
      · rw [if_neg h, if_neg h]
        rw [ih (dictInsert acc (pyLower k0) (processValue b k0 v0)) k]
        simp only [assocLast]
        cases hal : assocLast (procList b t) k with
        | some v => rfl
        | none =>
          simp only []
          rw [dictGet_dictInsert]
          by_cases hk : pyLower k0 = k
          · rw [if_pos hk, if_pos hk]
          · rw [if_neg hk, if_neg hk]

theorem dictGet_qpBuild_nil (b : Bool) (l : List (String × String)) (k : String) :
    dictGet (qpBuild b [] l) k =
      match assocLast (procList b l) k with
      | some v => v
      | none => "" := by
  rw [dictGet_qpBuild]
  cases assocLast (procList b l) k <;> rfl

theorem assocLast_eq_none_iff {l : List (String × String)} {k : String} :
    assocLast l k = none ↔ k ∉ l.map Prod.fst := by
  induction l with
  | nil => simp [assocLast]
  | cons p t ih =>
    simp only [assocLast, List.map_cons, List.mem_cons]
    cases hal : assocLast t k with
    | some v =>
      constructor
      · intro h; cases h
      · intro h
        exfalso
        refine h (Or.inr ?_)
        by_contra hn
        rw [ih.mpr hn] at hal
        cases hal
    | none =>
      constructor
      · intro h
        by_cases hp : p.1 = k
        · rw [if_pos hp] at h; cases h
        · intro hor
          rcases hor with hor | hor
          · exact hp hor.symm
          · exact ih.mp hal hor
      · intro h
        rw [if_neg (fun hp => h (Or.inl hp.symm))]

theorem assocLast_some_mem {l : List (String × String)} {k v : String}
    (h : assocLast l k = some v) : (k, v) ∈ l := by
  induction l with
  | nil => cases h
  | cons p t ih =>
    simp only [assocLast] at h
    cases hal : assocLast t k with
    | some w =>
      rw [hal] at h
      cases h
      exact List.mem_cons_of_mem _ (ih hal)
    | none =>
      rw [hal] at h
      by_cases hp : p.1 = k
      · rw [if_pos hp] at h
        have hpv : p = (k, v) := by
          cases h
          cases p
          simp only [Prod.mk.injEq]
          exact ⟨hp, trivial⟩
        rw [← hpv]
        exact List.mem_cons_self _ _
      · rw [if_neg hp] at h; cases h

theorem assocLast_nodup_mem {l : List (String × String)} {k v : String}
    (hnd : (l.map Prod.fst).Nodup) (hm : (k, v) ∈ l) : assocLast l k = some v := by
  induction l with
  | nil => cases hm
  | cons p t ih =>
    rw [List.map_cons, List.nodup_cons] at hnd
    simp only [assocLast]
    rcases List.mem_cons.mp hm with hm | hm
    · have hk : p.1 = k := by rw [← hm]
      have hnone : assocLast t k = none :=
        assocLast_eq_none_iff.mpr (by rw [← hk]; exact hnd.1)
      rw [hnone, if_pos hk, ← hm]
    · rw [ih hnd.2 hm]

theorem assocLast_perm_nodup {l1 l2 : List (String × String)} {k : String}
    (h : l1.Perm l2) (hnd : (l1.map Prod.fst).Nodup) :
    assocLast l1 k = assocLast l2 k := by
  have hnd2 : (l2.map Prod.fst).Nodup := ((h.map Prod.fst).nodup_iff).mp hnd
  cases hal : assocLast l1 k with
  | some v =>
    exact (assocLast_nodup_mem hnd2 (h.mem_iff.mp (assocLast_some_mem hal))).symm
  | none =>
    refine (assocLast_eq_none_iff.mpr ?_).symm
    intro hmem
    exact assocLast_eq_none_iff.mp hal (((h.map Prod.fst).mem_iff).mpr hmem)

theorem procList_perm (b : Bool) {l1 l2 : List (String × String)} (h : l1.Perm l2) :
    (procList b l1).Perm (procList b l2) :=
  h.filterMap _

theorem paramList_perm {l1 l2 : List (String × String)} (h : l1.Perm l2) :
    (paramList l1).Perm (paramList l2) := by
  rw [paramList_eq_map_procList true, paramList_eq_map_procList true]
  exact (procList_perm true h).map _

theorem dictGet_perm_nodup (b : Bool) {l1 l2 : List (String × String)}
    (h : l1.Perm l2) (hnd : (paramList l1).Nodup) (k : String) :
    dictGet (qpBuild b [] l1) k = dictGet (qpBuild b [] l2) k := by
  have hnd2 : ((procList b l1).map Prod.fst).Nodup := by
    rw [← paramList_eq_map_procList]; exact hnd
  rw [dictGet_qpBuild_nil, dictGet_qpBuild_nil,
    assocLast_perm_nodup (procList_perm b h) hnd2]


theorem canonicalKeys_perm_eq {l1 l2 : List (String × String)} (h : l1.Perm l2) :
    canonicalKeys l1 = canonicalKeys l2 :=
  sortStrings_eq_of_perm (paramList_perm h)

theorem sort_params_eq_of_perm (b : Bool) {l1 l2 : List (String × String)}
    (h : l1.Perm l2) (hnd : (paramList l1).Nodup) :
    sort_params l1 b = sort_params l2 b := by
  unfold sort_params canonicalPairs
  rw [canonicalKeys_perm_eq h,
    show (fun p => (p, dictGet (qpBuild b [] l1) p)) =
        (fun p => (p, dictGet (qpBuild b [] l2) p)) from
      funext fun p => by rw [dictGet_perm_nodup b h hnd p]]

theorem mem_paramList {x : String} {l : List (String × String)} (h : x ∈ paramList l) :
    ∃ p, p ∈ l ∧ x = pyLower p.1 ∧ pyLower p.1 ∉ reservedKeys := by
  induction l with
  | nil => cases h
  | cons p t ih =>
    cases p with
    | mk k0 v0 =>
      unfold paramList at h
      by_cases hr : pyLower k0 ∈ reservedKeys
      · rw [if_pos hr] at h
        rcases ih h with ⟨q, hq, hx, hqr⟩
        exact ⟨q, List.mem_cons_of_mem _ hq, hx, hqr⟩
      · rw [if_neg hr] at h
        rcases List.mem_cons.mp h with h | h
        · exact ⟨(k0, v0), List.mem_cons_self _ _, h, hr⟩
        · rcases ih h with ⟨q, hq, hx, hqr⟩
          exact ⟨q, List.mem_cons_of_mem _ hq, hx, hqr⟩

theorem mem_procList_intro (b : Bool) {l : List (String × String)} {k v : String}
    (hkv : (k, v) ∈ l) (hr : pyLower k ∉ reservedKeys) :
    (pyLower k, processValue b k v) ∈ procList b l :=
  List.mem_filterMap.mpr ⟨(k, v), hkv, by rw [if_neg hr]⟩

theorem mem_procList_elim {b : Bool} {l : List (String × String)}
    {q : String × String} (h : q ∈ procList b l) :
    ∃ p, p ∈ l ∧ pyLower p.1 ∉ reservedKeys ∧
      q = (pyLower p.1, processValue b p.1 p.2) := by
  rcases List.mem_filterMap.mp h with ⟨p, hp, hpq⟩
  by_cases hr : pyLower p.1 ∈ reservedKeys
  · rw [if_pos hr] at hpq; cases hpq
  · rw [if_neg hr] at hpq
    cases hpq
    exact ⟨p, hp, hr, rfl⟩

theorem mem_canonicalKeys_intro {l : List (String × String)} {k v : String}
    (hkv : (k, v) ∈ l) (hr : pyLower k ∉ reservedKeys) :
    pyLower k ∈ canonicalKeys l := by
  refine mem_sortStrings.mpr ?_
  rw [paramList_eq_map_procList true]
  exact List.mem_map.mpr
    ⟨(pyLower k, processValue true k v), mem_procList_intro true hkv hr, rfl⟩

theorem assocLast_unique {l : List (String × String)} {k w : String}
    (hmem : (k, w) ∈ l) (huniq : ∀ p ∈ l, p.1 = k → p.2 = w) :
    assocLast l k = some w := by
  induction l with
  | nil => cases hmem
  | cons p t ih =>
    simp only [assocLast]
    cases hal : assocLast t k with
    | some u =>
      have hu : u = w := by
        have hmt := assocLast_some_mem hal
        exact huniq (k, u) (List.mem_cons_of_mem _ hmt) rfl
      rw [hu]
    | none =>
      rcases List.mem_cons.mp hmem with hm | hm
      · rw [if_pos (by rw [← hm]), ← hm]
      · exact absurd hal (by
          rw [ih hm (fun q hq hq1 => huniq q (List.mem_cons_of_mem _ hq) hq1)]
          intro hc
          cases hc)

theorem dictGet_qpBuild_unique (b : Bool) {l : List (String × String)}
    {k0 w : String} (hmem : (k0, w) ∈ procList b l)
    (huniq : ∀ q ∈ procList b l, q.1 = k0 → q.2 = w) :
    dictGet (qpBuild b [] l) k0 = w := by
  rw [dictGet_qpBuild_nil, assocLast_unique hmem huniq]

/-! ## `quote_plus`, uppercase preservation, string appends -/

theorem pySafeChar_upper {c : Char} (h1 : 65 ≤ c.toNat) (h2 : c.toNat ≤ 90) :
    pySafeChar c = true := by
  unfold pySafeChar
  rw [decide_eq_true h1, decide_eq_true h2]
  rfl

theorem quotePlusChar_upper {c : Char} (h1 : 65 ≤ c.toNat) (h2 : c.toNat ≤ 90) :
    quotePlusChar c = [c] := by
  unfold quotePlusChar
  rw [if_pos (pySafeChar_upper h1 h2)]

theorem mem_quote_plus_upper {v : String} {c : Char} (hc : c ∈ v.data)
    (h1 : 65 ≤ c.toNat) (h2 : c.toNat ≤ 90) : c ∈ (quote_plus v).data := by
  unfold quote_plus
  exact List.mem_flatMap.mpr
    ⟨c, hc, by rw [quotePlusChar_upper h1 h2]; exact List.mem_cons_self _ _⟩

theorem pyLower_ne_of_mem_upper {s : String} {c : Char} (hc : c ∈ s.data)
    (h1 : 65 ≤ c.toNat) (h2 : c.toNat ≤ 90) : pyLower s ≠ s := by
  intro h
  have hdata : s.data.map lowerChar = s.data := congrArg String.data h
  exact lowerChar_ne_of_upper h1 h2 (map_eq_self_mem hdata c hc)

theorem str_append_nil (a : String) : a ++ "" = a :=
  stringDataEq (List.append_nil _)

theorem str_append_assoc (a b c : String) : (a ++ b) ++ c = a ++ (b ++ c) :=
  stringDataEq (List.append_assoc _ _ _)

/-- The case shape of `_request_url`: with a public key the authentication
prefix is rendered and the canonical parameters (canonicalized WITHOUT
lowercase folding) are appended after `&` when non-empty; without a public
key only `?` plus the canonical parameters follow the base URL. -/
theorem request_url_eq (apiUrl publicKey method nonce : String) (date : Int)
    (apiSignature : String) (params : List (String × String)) :
    request_url apiUrl publicKey method nonce date apiSignature params =
      if publicKey = "" then
        apiUrl ++ method ++ "/" ++ "?" ++ sort_params params false
      else if sort_params params false = "" then
        apiUrl ++ method ++ "/" ++ "?api_key=" ++ publicKey ++ "&date=" ++
          toString date ++ "&nonce=" ++ nonce ++ "&api_sig=" ++ apiSignature
      else
        apiUrl ++ method ++ "/" ++ "?api_key=" ++ publicKey ++ "&date=" ++
          toString date ++ "&nonce=" ++ nonce ++ "&api_sig=" ++ apiSignature ++
          "&" ++ sort_params params false := by
  show (if sort_params params false ≠ "" ∧ publicKey ≠ "" then
      (if publicKey ≠ "" then
        apiUrl ++ method ++ "/" ++ "?api_key=" ++ publicKey ++ "&date=" ++
          toString date ++ "&nonce=" ++ nonce ++ "&api_sig=" ++ apiSignature
      else apiUrl ++ method ++ "/" ++ "?") ++ "&" ++ sort_params params false
    else
      (if publicKey ≠ "" then
        apiUrl ++ method ++ "/" ++ "?api_key=" ++ publicKey ++ "&date=" ++
          toString date ++ "&nonce=" ++ nonce ++ "&api_sig=" ++ apiSignature
      else apiUrl ++ method ++ "/" ++ "?") ++ sort_params params false) = _
  by_cases hpub : publicKey = ""
  · rw [if_neg (show ¬ (sort_params params false ≠ "" ∧ publicKey ≠ "") from
        fun hc => hc.2 hpub),
      if_neg (show ¬ publicKey ≠ "" from fun h2 => h2 hpub), if_pos hpub]
  · by_cases hex : sort_params params false = ""
    · rw [if_neg (show ¬ (sort_params params false ≠ "" ∧ publicKey ≠ "") from
          fun hc => hc.1 hex),
        if_pos hpub, hex, str_append_nil, if_neg hpub, if_pos rfl]
    · rw [if_pos ⟨hex, hpub⟩, if_pos hpub, if_neg hpub, if_neg hex]


/-! ## Claim theorems -/

instance {e a : Type} [DecidableEq e] [DecidableEq a] : DecidableEq (Except e a) :=
  fun x y =>
  match x, y with
  | .error u, .error w =>
    match decEq u w with
    | isTrue h => isTrue (by rw [h])
    | isFalse h => isFalse (fun hh => h (by cases hh; rfl))
  | .ok u, .ok w =>
    match decEq u w with
    | isTrue h => isTrue (by rw [h])
    | isFalse h => isFalse (fun hh => h (by cases hh; rfl))
  | .error _, .ok _ => isFalse (fun hh => by cases hh)
  | .ok _, .error _ => isFalse (fun hh => by cases hh)

/-- A concrete random index source, for evaluating `generate_nonce` at
specific inputs (always picks the first alphabet character). -/
def rand0 : Nat → Fin nonceChars.length := fun _ => ⟨0, by decide⟩

/-- The pair the `image_url` special case of `_sort_params` emits, when the
mapping has exactly one entry whose key lowercases to `image_url`. -/
theorem mem_canonicalPairs_image_url (b : Bool) {l : List (String × String)}
    {k v : String} (hkv : (k, v) ∈ l) (hk : pyLower k = "image_url")
    (huniq : ∀ p ∈ l, pyLower p.1 = "image_url" → p = (k, v)) :
    ("image_url", processValue b k v) ∈ canonicalPairs b l := by
  have hr : pyLower k ∉ reservedKeys := by rw [hk]; decide
  have hget : dictGet (qpBuild b [] l) "image_url" = processValue b k v := by
    refine dictGet_qpBuild_unique b (hk ▸ mem_procList_intro b hkv hr) ?_
    intro q hq hq1
    rcases mem_procList_elim hq with ⟨p, hp, hrp, hqe⟩
    have hpl : pyLower p.1 = "image_url" := by rw [hqe] at hq1; exact hq1
    have hpe := huniq p hp hpl
    rw [hqe, hpe]
  have hkey : "image_url" ∈ canonicalKeys l := hk ▸ mem_canonicalKeys_intro hkv hr
  unfold canonicalPairs
  refine List.mem_map.mpr ⟨"image_url", hkey, ?_⟩
  rw [hget]

/-- C1 (amended): in `canonicalize_params` (`_sort_params` with lowercasing
enabled), the value of the entry whose key lowercases to `image_url` is
ALWAYS percent-encoded with the safe set leaving `~` unescaped and then
lowercased, and its key is emitted lowercased — also when the value already
contains a `%`: a pre-encoded value is NOT passed through but encoded
again.  (The mapping is assumed to contain exactly one such entry, so that
"the" value is well defined.) -/
theorem claim_C1 {l : List (String × String)} {k v : String}
    (hkv : (k, v) ∈ l) (hk : pyLower k = "image_url")
    (huniq : ∀ p ∈ l, pyLower p.1 = "image_url" → p = (k, v)) :
    ("image_url", pyLower (quote_plus v)) ∈ canonicalPairs true l ∧
    sort_params l = String.intercalate "&"
      ((canonicalPairs true l).map (fun p => p.1 ++ "=" ++ p.2)) := by
  have hpv : processValue true k v = pyLower (quote_plus v) := by
    unfold processValue
    rw [if_pos hk]
    rfl
  have hmem := mem_canonicalPairs_image_url true hkv hk huniq
  rw [hpv] at hmem
  exact ⟨hmem, rfl⟩

/-- C1 counterexample: `canonicalize_params({"image_url": "a%21"})` does NOT
pass the `%`-containing value through unescaped — the code re-encodes it
(`%` becomes `%25`), yielding `image_url=a%2521`, not `image_url=a%21`. -/
theorem claim_C1_counterexample :
    sort_params [("image_url", "a%21")] = "image_url=a%2521" ∧
    sort_params [("image_url", "a%21")] ≠ "image_url=" ++ "a%21" := by
  constructor
  · decide
  · decide

/-- C1 witness: the spec example `{"image_url": "CAPS!??!?!"}` canonicalizes
to `image_url=caps%21%3f%3f%21%3f%21` (percent-encoded, then lowercased). -/
theorem claim_C1_witness :
    ("image_url", "caps%21%3f%3f%21%3f%21") ∈
      canonicalPairs true [("image_url", "CAPS!??!?!")] ∧
    sort_params [("image_url", "CAPS!??!?!")] = "image_url=caps%21%3f%3f%21%3f%21" := by
  have h := @claim_C1 [("image_url", "CAPS!??!?!")] "image_url" "CAPS!??!?!"
    (by decide) (by decide) (by decide)
  constructor
  · have he : pyLower (quote_plus "CAPS!??!?!") = "caps%21%3f%3f%21%3f%21" := by decide
    rw [← he]
    exact h.1
  · decide

/-- C4 (amended): `canonicalize_params` is order-independent on its input
for mappings whose surviving lowercased keys are pairwise distinct (the
counterexample shows distinctness is needed when two keys collide after
lowercasing), its output pairs are joined with `&` in ascending
lexicographic key order, and the empty mapping yields the empty string. -/
theorem claim_C4 (b : Bool) {l1 l2 : List (String × String)} (hperm : l1.Perm l2)
    (hnd : (paramList l1).Nodup) :
    sort_params l1 b = sort_params l2 b ∧
    (canonicalKeys l1).Pairwise (fun a c => strLe a c = true) ∧
    sort_params [] b = "" :=
  ⟨sort_params_eq_of_perm b hperm hnd, sortStrings_sorted _, rfl⟩

/-- C4 counterexample: the mappings `{"A": "1", "a": "2"}` and
`{"a": "2", "A": "1"}` are equal as sets of key/value pairs, yet
canonicalize to different strings (`a=2&a=2` vs `a=1&a=1`): with two keys
colliding on the lowercased name, the later write wins in the
`query_params` dict while the key list gains a duplicate. -/
theorem claim_C4_counterexample :
    ([("A", "1"), ("a", "2")] : List (String × String)).Perm
      [("a", "2"), ("A", "1")] ∧
    sort_params [("A", "1"), ("a", "2")] = "a=2&a=2" ∧
    sort_params [("a", "2"), ("A", "1")] = "a=1&a=1" ∧
    sort_params [("A", "1"), ("a", "2")] ≠ sort_params [("a", "2"), ("A", "1")] :=
  ⟨List.Perm.swap _ _ _, by decide, by decide, by decide⟩

/-- C4 witness: `{"b": "2", "a": "1"}` and `{"a": "1", "b": "2"}` both
canonicalize to `a=1&b=2`. -/
theorem claim_C4_witness :
    ([("b", "2"), ("a", "1")] : List (String × String)).Perm
      [("a", "1"), ("b", "2")] ∧
    sort_params [("b", "2"), ("a", "1")] true =
      sort_params [("a", "1"), ("b", "2")] true ∧
    sort_params [("b", "2"), ("a", "1")] true = "a=1&b=2" := by
  have h := @claim_C4 true [("b", "2"), ("a", "1")] [("a", "1"), ("b", "2")]
    (List.Perm.swap _ _ _) (by decide)
  exact ⟨List.Perm.swap _ _ _, h.1, by decide⟩

/-- C5: every pair emitted into the canonical parameter string has a key
that is not (case-insensitively) one of the reserved keys
`api_key, public_key, api_sig, date, nonce, image_upload`, and that key is
already lowercased; the canonical string is exactly these pairs rendered
`key=value` and joined with `&`. -/
theorem claim_C5 {b : Bool} {l : List (String × String)} {k v : String}
    (h : (k, v) ∈ canonicalPairs b l) :
    k ∉ reservedKeys ∧ pyLower k = k ∧
    sort_params l b = String.intercalate "&"
      ((canonicalPairs b l).map (fun p => p.1 ++ "=" ++ p.2)) := by
  rcases List.mem_map.mp h with ⟨p, hp, hpk⟩
  injection hpk with h1 h2
  subst h1
  rcases mem_paramList (mem_sortStrings.mp hp) with ⟨q, hq, hx, hqr⟩
  subst hx
  exact ⟨hqr, pyLower_idem _, rfl⟩

/-- C5 witness: `canonicalize_params({"api_key": "x", "a": "1"})` emits the
single pair `a=1`; the key `a` is unreserved and lowercase. -/
theorem claim_C5_witness :
    ("a", "1") ∈ canonicalPairs true [("api_key", "x"), ("a", "1")] ∧
    ("a" : String) ∉ reservedKeys ∧ pyLower "a" = "a" ∧
    sort_params [("api_key", "x"), ("a", "1")] = "a=1" := by
  have hmem : (("a" : String), ("1" : String)) ∈
      canonicalPairs true [("api_key", "x"), ("a", "1")] := by decide
  have h := @claim_C5 true [("api_key", "x"), ("a", "1")] "a" "1" hmem
  exact ⟨hmem, h.1, h.2.1, by decide⟩


/-- C2: the GET signing string handed to the HMAC is the exact concatenation,
with no added separators, of the private key, the literal `GET`, the decimal
timestamp, the nonce, the target URL `base_url + method + "/"`, and the
canonical parameter string; `get_request` signs exactly this string. -/
theorem claim_C2 (sig : String → String)
    (privateKey apiUrl publicKey method nonce : String) (date : Int)
    (params : List (String × String)) :
    get_to_sign privateKey apiUrl method nonce date params =
      privateKey ++ "GET" ++ toString date ++ nonce ++ (apiUrl ++ method ++ "/") ++
        sort_params params ∧
    get_request sig apiUrl publicKey privateKey nonce date method params =
      request_url apiUrl publicKey method nonce date
        (sig (privateKey ++ "GET" ++ toString date ++ nonce ++
          (apiUrl ++ method ++ "/") ++ sort_params params)) params :=
  ⟨rfl, rfl⟩

/-- C3 (amended): for a non-blank filename, `post_request(method, ...)`
computes its signature over the POST signing string built for the FIXED
method `"search"` — not over the one for its `method` argument, which is
used only to render the returned URL (the two agree exactly when
`method = "search"`); that signing string is the exact concatenation of the
private key, `POST`, the content type `multipart/form-data; boundary=...`,
the percent-encoded-and-lowercased filename, the decimal timestamp, the
nonce, `base_url + "search" + "/"`, and the canonical parameter string. -/
theorem claim_C3 (sig : String → String)
    (apiUrl publicKey privateKey boundary nonce : String) (date : Int)
    (method f : String) (params : List (String × String))
    (h : (pyStrip f).data ≠ []) :
    post_request sig apiUrl publicKey privateKey boundary nonce date method
        (some f) params =
      .ok (request_url apiUrl publicKey method nonce date
        (sig (post_to_sign privateKey apiUrl "search" boundary nonce date f params))
        params, boundary) ∧
    (∀ m : String, post_to_sign privateKey apiUrl m boundary nonce date f params =
      privateKey ++ "POST" ++ ("multipart/form-data; boundary=" ++ boundary) ++
        pyLower (quote_plus f) ++ toString date ++ nonce ++
        (apiUrl ++ m ++ "/") ++ sort_params params) := by
  refine ⟨?_, fun m => rfl⟩
  show (if (pyStrip f).data = [] then
      (Except.error "Must specify an image to search for." :
        Except String (String × String))
    else Except.ok (request_url apiUrl publicKey method nonce date
      (sig (post_to_sign privateKey apiUrl "search" boundary nonce date f params))
      params, boundary)) = _
  rw [if_neg h]

/-- C3 counterexample: with the identity in place of the HMAC, calling
`post_request` for the method `image_count` does not produce the URL that a
signature over the `image_count` signing string would give — the code signs
the `search` signing string instead. -/
theorem claim_C3_counterexample :
    post_request id "u/" "pub" "priv" "bd" "a_nonce" 7 "image_count"
        (some "file") [] ≠
      .ok (request_url "u/" "pub" "image_count" "a_nonce" 7
        (id (post_to_sign "priv" "u/" "image_count" "bd" "a_nonce" 7 "file" []))
        [], "bd") := by
  decide

/-- C3 witness: a concrete `post_request` call with a non-blank filename
returns the URL carrying the signature of the `search` signing string. -/
theorem claim_C3_witness :
    post_request id "u/" "pub" "priv" "bd" "a_nonce" 7 "image_count"
        (some "file") [] =
      .ok (request_url "u/" "pub" "image_count" "a_nonce" 7
        (id (post_to_sign "priv" "u/" "search" "bd" "a_nonce" 7 "file" [])) [],
        "bd") ∧
    post_to_sign "priv" "u/" "search" "bd" "a_nonce" 7 "file" [] =
      "priv" ++ "POST" ++ ("multipart/form-data; boundary=" ++ "bd") ++
        pyLower (quote_plus "file") ++ toString (7 : Int) ++ "a_nonce" ++
        ("u/" ++ "search" ++ "/") ++ sort_params [] := by
  have h := claim_C3 id "u/" "pub" "priv" "bd" "a_nonce" 7 "image_count" "file" []
    (by decide)
  exact ⟨h.1, h.2 "search"⟩

/-- C6: the rendered GET request URL is
`base_url + method + "/?api_key=<pub>&date=<ts>&nonce=<nonce>&api_sig=<sig>`,
followed by `&` plus the canonical parameter string when non-empty; with an
empty public key the authentication prefix is omitted and the URL is
`base_url + method + "/?" + canonical parameters`.  `get_request` renders
exactly this with the computed signature. -/
theorem claim_C6 (sig : String → String)
    (apiUrl publicKey privateKey method nonce : String) (date : Int)
    (apiSignature : String) (params : List (String × String)) :
    request_url apiUrl publicKey method nonce date apiSignature params =
      (if publicKey = "" then
        apiUrl ++ method ++ "/" ++ "?" ++ sort_params params false
      else if sort_params params false = "" then
        apiUrl ++ method ++ "/" ++ "?api_key=" ++ publicKey ++ "&date=" ++
          toString date ++ "&nonce=" ++ nonce ++ "&api_sig=" ++ apiSignature
      else
        apiUrl ++ method ++ "/" ++ "?api_key=" ++ publicKey ++ "&date=" ++
          toString date ++ "&nonce=" ++ nonce ++ "&api_sig=" ++ apiSignature ++
          "&" ++ sort_params params false) ∧
    get_request sig apiUrl publicKey privateKey nonce date method params =
      request_url apiUrl publicKey method nonce date
        (sig (get_to_sign privateKey apiUrl method nonce date params)) params :=
  ⟨request_url_eq apiUrl publicKey method nonce date apiSignature params, rfl⟩

/-- C7 (amended): `generate_nonce` fails with the configuration error
(message naming the valid range 24 to 255) for every integer length below
24 or above 255 and for every string that is not an integer literal; but
NOT for every non-integer input — a numeric string (or a non-integral float
in range) makes the uncaught comparison (`range`) raise a `TypeError`
instead, as the counterexample shows. -/
theorem claim_C7 (rand : Nat → Fin nonceChars.length) (v : PyVal)
    (h : (∃ n : Int, v = .int n ∧ (n < 24 ∨ 255 < n)) ∨
         (∃ s0 : String, v = .str s0 ∧ pyIntParsable s0 = false)) :
    generate_nonce rand v = .error (.apiRequestError nonceErrorMsg) := by
  rcases h with ⟨n, hv, hn⟩ | ⟨s0, hv, hs⟩
  · subst hv
    show (if (decide (n < min_nonce_length) || decide (n > max_nonce_length)) = true
        then (Except.error (PyError.apiRequestError nonceErrorMsg) :
          Except PyError String)
        else Except.ok ⟨(List.range n.toNat).map (fun i => nonceChars.get (rand i))⟩)
      = _
    rcases hn with hn | hn
    · rw [if_pos (by rw [decide_eq_true (show n < min_nonce_length from hn)]; rfl)]
    · rw [if_pos (by
        rw [decide_eq_true (show n > max_nonce_length from hn), Bool.or_true])]
  · subst hv
    have hok : pyIntOk (.str s0) = false := hs
    simp [generate_nonce, hok]

/-- C7 counterexample: the non-integer input `"30"` (a numeric string) makes
`generate_nonce` fail with an uncaught `TypeError` from the comparison
`"30" < 24`, not with the configuration error the claim requires. -/
theorem claim_C7_counterexample :
    generate_nonce rand0 (.str "30") = .error .typeError ∧
    PyError.typeError ≠ .apiRequestError nonceErrorMsg :=
  ⟨rfl, by decide⟩

/-- C7 witness: length 23 is rejected with the configuration error. -/
theorem claim_C7_witness :
    generate_nonce rand0 (.int 23) = .error (.apiRequestError nonceErrorMsg) :=
  claim_C7 rand0 (.int 23) (Or.inl ⟨23, rfl, Or.inl (by decide)⟩)

/-- C8 (amended): for every integer length in `[24, 255]`, `generate_nonce`
returns a string of exactly that length whose characters all come from the
fixed nonce alphabet; that alphabet has 69 characters (not 70), namely the
ASCII letters, the digits, and the seven symbols `- _ = . , * ^`; the
default length is 24. -/
theorem claim_C8 (rand : Nat → Fin nonceChars.length) (n : Int)
    (h1 : 24 ≤ n) (h2 : n ≤ 255) :
    (∃ s : String, generate_nonce rand (.int n) = .ok s ∧
      s.length = n.toNat ∧ ∀ c ∈ s.data, c ∈ nonceChars) ∧
    nonceChars.length = 69 ∧ default_nonce_length = 24 ∧
    (∀ c ∈ nonceChars,
      (65 ≤ c.toNat ∧ c.toNat ≤ 90) ∨ (97 ≤ c.toNat ∧ c.toNat ≤ 122) ∨
      (48 ≤ c.toNat ∧ c.toNat ≤ 57) ∨ c ∈ ("-_=.,*^").data) := by
  refine ⟨⟨⟨(List.range n.toNat).map (fun i => nonceChars.get (rand i))⟩, ?_, ?_, ?_⟩,
    by decide, rfl, by decide⟩
  · show (if (decide (n < min_nonce_length) || decide (n > max_nonce_length)) = true
        then (Except.error (PyError.apiRequestError nonceErrorMsg) :
          Except PyError String)
        else Except.ok ⟨(List.range n.toNat).map (fun i => nonceChars.get (rand i))⟩)
      = _
    rw [if_neg (show
        ¬ (decide (n < min_nonce_length) || decide (n > max_nonce_length)) = true by
      rw [decide_eq_false (show ¬ n < min_nonce_length by
            unfold min_nonce_length; omega),
        decide_eq_false (show ¬ n > max_nonce_length by
            unfold max_nonce_length; omega)]
      decide)]
  · show ((List.range n.toNat).map (fun i => nonceChars.get (rand i))).length = n.toNat
    rw [List.length_map, List.length_range]
  · intro c hc
    rcases List.mem_map.mp hc with ⟨i, hi, hci⟩
    rw [← hci]
    exact List.get_mem _ _ _

/-- C8 counterexample: the nonce alphabet has 69 characters, not the 70 the
claim states (letters 52, digits 10, symbols 7). -/
theorem claim_C8_counterexample :
    nonce_allowable_chars.length = 69 ∧ nonce_allowable_chars.length ≠ 70 :=
  ⟨by decide, by decide⟩

/-- C8 witness: at the default length 24 a 24-character alphabet string is
produced. -/
theorem claim_C8_witness :
    (∃ s : String, generate_nonce rand0 (.int 24) = .ok s ∧
      s.length = (24 : Int).toNat ∧ ∀ c ∈ s.data, c ∈ nonceChars) ∧
    nonceChars.length = 69 ∧ default_nonce_length = 24 ∧
    (∀ c ∈ nonceChars,
      (65 ≤ c.toNat ∧ c.toNat ≤ 90) ∨ (97 ≤ c.toNat ∧ c.toNat ≤ 122) ∨
      (48 ≤ c.toNat ∧ c.toNat ≤ 57) ∨ c ∈ ("-_=.,*^").data) :=
  claim_C8 rand0 24 (by decide) (by decide)

/-- C9: `post_request` fails with the configuration error for a missing,
empty or whitespace-only filename, whatever the boundary, nonce, timestamp
and signature function are — the result is the bare error, so no partial
request is produced and the failure does not depend on any generated
value. -/
theorem claim_C9 (sig : String → String)
    (apiUrl publicKey privateKey boundary nonce : String) (date : Int)
    (method : String) (filename : Option String)
    (params : List (String × String))
    (h : filename = none ∨ ∃ f, filename = some f ∧ (pyStrip f).data = []) :
    post_request sig apiUrl publicKey privateKey boundary nonce date method
      filename params = .error "Must specify an image to search for." := by
  rcases h with h | ⟨f, hf, hsf⟩
  · subst h
    rfl
  · subst hf
    show (if (pyStrip f).data = [] then
        (Except.error "Must specify an image to search for." :
          Except String (String × String))
      else Except.ok (request_url apiUrl publicKey method nonce date
        (sig (post_to_sign privateKey apiUrl "search" boundary nonce date f params))
        params, boundary)) = _
    rw [if_pos hsf]

/-- C9 witness: a whitespace-only filename is rejected. -/
theorem claim_C9_witness :
    post_request id "u/" "pub" "priv" "bd" "a_nonce" 7 "search" (some "  ") [] =
      .error "Must specify an image to search for." :=
  claim_C9 id "u/" "pub" "priv" "bd" "a_nonce" 7 "search" (some "  ") []
    (Or.inr ⟨"  ", rfl, by decide⟩)

/-- C10: the URL query string is canonicalized with lowercase folding
disabled while the signature covers the canonicalization with folding
enabled: for a mapping whose (unique) `image_url` value contains an
uppercase letter and no `%`, the URL-side pair carries the percent-encoded
value with case preserved and the signature-side pair carries its
lowercasing, and the two differ; `get_request` signs `get_to_sign` (which
uses `sort_params l true`) while `request_url` appends
`sort_params l false`. -/
theorem claim_C10 (sig : String → String)
    (apiUrl publicKey privateKey nonce : String) (date : Int) (method : String)
    {l : List (String × String)} {k v : String}
    (hkv : (k, v) ∈ l) (hk : pyLower k = "image_url")
    (huniq : ∀ p ∈ l, pyLower p.1 = "image_url" → p = (k, v))
    (hup : ∃ c ∈ v.data, 65 ≤ c.toNat ∧ c.toNat ≤ 90)
    (_hpct : ('%' : Char) ∉ v.data) :
    ("image_url", quote_plus v) ∈ canonicalPairs false l ∧
    ("image_url", pyLower (quote_plus v)) ∈ canonicalPairs true l ∧
    quote_plus v ≠ pyLower (quote_plus v) ∧
    get_request sig apiUrl publicKey privateKey nonce date method l =
      request_url apiUrl publicKey method nonce date
        (sig (get_to_sign privateKey apiUrl method nonce date l)) l ∧
    get_to_sign privateKey apiUrl method nonce date l =
      privateKey ++ "GET" ++ toString date ++ nonce ++ (apiUrl ++ method ++ "/") ++
        sort_params l true ∧
    request_url apiUrl publicKey method nonce date
        (sig (get_to_sign privateKey apiUrl method nonce date l)) l =
      (if publicKey = "" then
        apiUrl ++ method ++ "/" ++ "?" ++ sort_params l false
      else if sort_params l false = "" then
        apiUrl ++ method ++ "/" ++ "?api_key=" ++ publicKey ++ "&date=" ++
          toString date ++ "&nonce=" ++ nonce ++ "&api_sig=" ++
          sig (get_to_sign privateKey apiUrl method nonce date l)
      else
        apiUrl ++ method ++ "/" ++ "?api_key=" ++ publicKey ++ "&date=" ++
          toString date ++ "&nonce=" ++ nonce ++ "&api_sig=" ++
          sig (get_to_sign privateKey apiUrl method nonce date l) ++
          "&" ++ sort_params l false) := by
  have hfalse : processValue false k v = quote_plus v := by
    unfold processValue
    rw [if_pos hk]
    rfl
  have htrue : processValue true k v = pyLower (quote_plus v) := by
    unfold processValue
    rw [if_pos hk]
    rfl
  have h1 := mem_canonicalPairs_image_url false hkv hk huniq
  have h2 := mem_canonicalPairs_image_url true hkv hk huniq
  rw [hfalse] at h1
  rw [htrue] at h2
  rcases hup with ⟨c, hc, hc1, hc2⟩
  refine ⟨h1, h2, ?_, rfl, rfl,
    request_url_eq apiUrl publicKey method nonce date _ l⟩
  exact fun he =>
    pyLower_ne_of_mem_upper (mem_quote_plus_upper hc hc1 hc2) hc1 hc2 he.symm

/-- C10 witness: for `{"image_url": "CAPS?!!?"}` the URL carries
`CAPS%3F%21%21%3F` while the signature covers `caps%3f%21%21%3f`. -/
theorem claim_C10_witness :
    ("image_url", "CAPS%3F%21%21%3F") ∈
      canonicalPairs false [("image_url", "CAPS?!!?")] ∧
    ("image_url", "caps%3f%21%21%3f") ∈
      canonicalPairs true [("image_url", "CAPS?!!?")] ∧
    ("CAPS%3F%21%21%3F" : String) ≠ "caps%3f%21%21%3f" := by
  have h := claim_C10 id "u/" "pub" "priv" "a_nonce" 7 "search"
    (l := [("image_url", "CAPS?!!?")]) (k := "image_url") (v := "CAPS?!!?")
    (by decide) (by decide) (by decide)
    ⟨'C', by decide, by decide, by decide⟩ (by decide)
  have he1 : quote_plus "CAPS?!!?" = "CAPS%3F%21%21%3F" := by decide
  have he2 : pyLower (quote_plus "CAPS?!!?") = "caps%3f%21%21%3f" := by decide
  refine ⟨?_, ?_, by decide⟩
  · rw [← he1]
    exact h.1
  · rw [← he2]
    exact h.2.1

end PyTinEye
